import Mathlib

/-!
Verification development for the `neos4mosel` repository
(`src/nemos/nemos_cli.py`), a Mosel-to-NEOS bridge: it parses an options
string, resolves a job configuration against the stored configuration and
the live NEOS solver catalog, builds an XML submission document embedding
the NL model file, submits the job, polls it to completion and writes the
solution file.

The Python source is shallowly embedded below.  Pure string manipulation
(`parse_neos_options`, the XML document construction) is translated to
functions on `String` / `List Char`; file contents, the stored
configuration, the keyring and the remote NEOS service are passed in as
explicit values (the service as lists of successive responses); remote
calls, log output and file writes are recorded in an explicit event trace;
Python exceptions become an `Except` error type whose constructors are
named after the exception classes the source raises.
-/

namespace Nemos

/-! ## Python string primitives (modelled on `List Char`) -/

/-- Whitespace test used by Python `str.split()` / `str.strip()`
(ASCII subset: space, tab, CR, LF). -/
def isWs (c : Char) : Bool := c.isWhitespace

/-- One right-to-left step of whitespace tokenization: the state is the
token currently being collected and the tokens already finished. -/
def wsStep (c : Char) : List Char × List (List Char) → List Char × List (List Char)
  | (cur, toks) =>
    if isWs c then ([], if cur = [] then toks else cur :: toks)
    else (c :: cur, toks)

/-- Python `str.split()` with no separator: split on runs of whitespace,
dropping empty tokens. -/
def wsSplit (l : List Char) : List (List Char) :=
  let s := l.foldr wsStep ([], [])
  if s.1 = [] then s.2 else s.1 :: s.2

/-- First occurrence of a separator character: `some (before, after)`,
or `none` when absent.  Models Python `s.split(sep, maxsplit=1)`. -/
def splitFirst (sep : Char) : List Char → Option (List Char × List Char)
  | [] => none
  | c :: cs =>
    if c = sep then some ([], cs)
    else
      match splitFirst sep cs with
      | none => none
      | some (a, b) => some (c :: a, b)

/-- Python `str.strip()`: drop whitespace from both ends. -/
def pyStrip (l : List Char) : List Char :=
  ((l.dropWhile isWs).reverse.dropWhile isWs).reverse

/-- Python `str.lower()` on one character (ASCII range, which is all the
source's option keys use). -/
def pyLowerChar (c : Char) : Char :=
  if 65 ≤ c.toNat ∧ c.toNat ≤ 90 then Char.ofNat (c.toNat + 32) else c

/-- Python `str.lower()`. -/
def pyLower (l : List Char) : List Char := l.map pyLowerChar

/-- Python `str.split(sep)` (full split on a single-character separator,
keeping empty parts, as Python does). -/
def pySplitAll (sep : Char) : List Char → List (List Char)
  | [] => [[]]
  | c :: cs =>
    if c = sep then [] :: pySplitAll sep cs
    else
      match pySplitAll sep cs with
      | p :: ps => (c :: p) :: ps
      | [] => [[c]]

/-! ## Python dict primitives -/

/-- Python `dict` insertion (`d[k] = v`): an existing key keeps its
position and gets the new value, a new key is appended. -/
def dictUpd : List (String × String) → String → String → List (String × String)
  | [], k, v => [(k, v)]
  | (k', v') :: rest, k, v =>
    if k' = k then (k, v) :: rest else (k', v') :: dictUpd rest k v

/-- Python `d.get(k)` / `k in d`. -/
def dictGet : List (String × String) → String → Option String
  | [], _ => none
  | (k', v) :: rest, k => if k' = k then some v else dictGet rest k

/-! ## `parse_neos_options` (source lines 113-131) -/

/-- One step of the dict comprehension in `parse_neos_options`: a token is
split at its first `=`; tokens without `=` are dropped, the key is
stripped and lower-cased, the value stripped. -/
def parseTok (d : List (String × String)) (tok : List Char) : List (String × String) :=
  match splitFirst '=' tok with
  | none => d
  | some (k, v) => dictUpd d (String.mk (pyLower (pyStrip k))) (String.mk (pyStrip v))

/-- `parse_neos_options` (source lines 113-131): whitespace-separated
`key=value` tokens into a dict. -/
def parse_neos_options (options_str : String) : List (String × String) :=
  (wsSplit options_str.toList).foldl parseTok []

/-- Serialization of a parsed option map back to a whitespace-separated
`key=value` string, as used by the round-trip property of the spec. -/
def serialize_neos_options : List (String × String) → String
  | [] => ""
  | [kv] => kv.1 ++ "=" ++ kv.2
  | kv :: rest => kv.1 ++ "=" ++ kv.2 ++ " " ++ serialize_neos_options rest

/-! ## Data model -/

/-- A file path, split as Python `pathlib.Path` views it: the part before
the final suffix, and the final suffix (extension, dot included). -/
structure FPath where
  stem : String
  suffix : String
deriving DecidableEq, Repr

/-- Python `Path.with_suffix`: replace the final suffix. -/
def FPath.withSuffix (p : FPath) (s : String) : FPath := ⟨p.stem, s⟩

/-- The persisted configuration (`config.json`, sections `neos` and
`user` flattened; source lines 35-51). -/
structure StoredConfig where
  server : String
  category : String
  solver : String
  forbidden_solvers : List String
  email : String
  user : String
  keyring_id : String
deriving DecidableEq, Repr

/-- The dict returned by `get_neos_config` (source lines 201-208). -/
structure NeosRunConfig where
  category : String
  solver : String
  priority : String
  email : String
  user : String
  pwd : Option String
deriving DecidableEq, Repr

/-- Python exceptions raised by the source, by class. -/
inductive Err where
  | fileNotFound (msg : String)
  | valueError (msg : String)
  | typeError (msg : String)
  | exception (msg : String)
  | runtimeError (msg : String)
  | assertionError (msg : String)
  | exitError (msg : String)
  | indexError
  | oracleExhausted
deriving DecidableEq, Repr

/-- Observable actions of a run: remote XML-RPC calls, logging, terminal
output and file writes, in program order. -/
inductive Event where
  | ping
  | listCategories
  | listSolversInCategory (category : String)
  | listAllSolvers
  | submitJob (doc : Option String)
  | authenticatedSubmitJob (doc : Option String) (user : String) (pwd : String)
  | getJobStatus
  | getIntermediateResults (offset : Nat)
  | getFinalResults
  | getCompletionCode
  | getOutputFile (name : String)
  | buildPayload
  | writeFile (path : FPath) (contents : String)
  | printMsg (msg : String)
  | logError (msg : String)
  | logWarning (msg : String)
  | logInfo (msg : String)
  | logCategoryList (cats : List (String × String))
  | logSolverList (solvers : List String)
deriving DecidableEq, Repr

/-- The remote NEOS service, as the fixed responses it gives to this run:
catalog answers, the submission answer, and the successive answers to
status / intermediate-result polls. -/
structure NeosService where
  pingOk : Bool
  categories : List (String × String)
  solversInCategory : String → List String
  allSolvers : List String
  submitResult : Nat × String
  statuses : List String
  inter : List (String × Nat)
  finalMsg : String
  completionCode : String
  outputFile : String

/-! ## `get_neos_api` (source lines 86-110) -/

/-- `server = server_uri or c_neos.get('server', None)` (source line 100):
Python `or` falls back when the left operand is falsy (empty string or
absent). -/
def resolved_server (server_uri : Option String) (stored : StoredConfig) : String :=
  match server_uri with
  | some s => if s = "" then stored.server else s
  | none => stored.server

/-- `get_neos_api` (source lines 86-110): resolve the server URI, connect
and ping.  `sys.exit(1)` paths become `exitError`. -/
def get_neos_api (server_uri : Option String) (stored : StoredConfig)
    (svc : NeosService) : Except Err Unit × List Event :=
  let server := resolved_server server_uri stored
  if server = "" then
    (.error (.exitError "NEOS server URI not provided!"), [])
  else if svc.pingOk then
    (.ok (), [.ping])
  else
    (.error (.exitError "Could not reach the NEOS server"), [.ping])

/-! ## `get_neos_config` (source lines 134-208) -/

/-- Problem-category resolution (source lines 149-160): a category given in
the options must be in the live category list, otherwise the stored one is
used. -/
def resolve_category (odict : List (String × String)) (stored : StoredConfig)
    (svc : NeosService) : Except Err String × List Event :=
  match dictGet odict "category" with
  | none => (.ok stored.category, [])
  | some cat =>
    if (dictGet svc.categories cat).isSome then
      (.ok cat, [.listCategories])
    else
      (.error (.valueError ("Unsupported problem category " ++ cat)),
       [.listCategories,
        .logError ("Unsupported problem category " ++ cat),
        .logCategoryList svc.categories])

/-- The set comprehension of source line 167: solvers of the category that
support `NL` input.  Each item is expected as `solver:input`;
`s.split(':')[1]` raises `IndexError` when an item has no `:`. -/
def nl_solvers : List String → Except Err (List String)
  | [] => .ok []
  | s :: rest =>
    match pySplitAll ':' s.toList with
    | p0 :: p1 :: _ =>
      match nl_solvers rest with
      | .error e => .error e
      | .ok tail =>
        .ok (if String.mk p1 = "NL" then String.mk p0 :: tail else tail)
    | _ => .error .indexError

/-- Source lines 165-168: the NL-capable solvers of a category minus the
configured forbidden solvers. -/
def valid_nl_solvers (items : List String) (forbidden : List String) :
    Except Err (List String) :=
  match nl_solvers items with
  | .error e => .error e
  | .ok l => .ok (l.filter (fun s => ¬ forbidden.contains s))

/-- Solver resolution (source lines 162-174). -/
def resolve_solver (odict : List (String × String)) (stored : StoredConfig)
    (svc : NeosService) (category : String) : Except Err String × List Event :=
  match dictGet odict "solver" with
  | none => (.ok stored.solver, [])
  | some solver =>
    match valid_nl_solvers (svc.solversInCategory category) stored.forbidden_solvers with
    | .error e => (.error e, [.listSolversInCategory category])
    | .ok valid =>
      if valid.contains solver then
        (.ok solver, [.listSolversInCategory category])
      else
        (.error (.valueError ("Unsupported solver " ++ solver ++ " for category " ++ category)),
         [.listSolversInCategory category,
          .logError ("Solver " ++ solver ++ " is not supported for " ++ category
            ++ " problems with NL input."),
          .logSolverList valid])

/-- `get_neos_config` (source lines 134-208).  The stored configuration
(read from `config.json` in the source) and the keyring lookup are passed
in; catalog answers come from the service.  Returns the resolved run
configuration or the first exception raised. -/
def get_neos_config (odict : List (String × String)) (stored : StoredConfig)
    (svc : NeosService) (keyringGet : String → String → Option String) :
    Except Err NeosRunConfig × List Event :=
  match resolve_category odict stored svc with
  | (.error e, evs) => (.error e, evs)
  | (.ok category, evs1) =>
    match resolve_solver odict stored svc category with
    | (.error e, evs) => (.error e, evs1 ++ evs)
    | (.ok solver, evs2) =>
      -- source lines 176-179: the combination check is a warning, not fatal
      let comboEvs :=
        [Event.listAllSolvers]
        ++ (if svc.allSolvers.contains (category ++ ":" ++ solver ++ ":NL") then []
            else [Event.logError ("Specified NEOS solver " ++ category ++ ":" ++ solver
              ++ ":NL is not in the list!")])
        ++ [Event.logInfo ("Specified NEOS solver = " ++ category ++ ":" ++ solver ++ ":NL")]
      let priority := (dictGet odict "priority").getD "short"
      let email := (dictGet odict "email").getD stored.email
      if email = "" then
        (.error (.exception "NEOS requires email for problem submissions, please specify it."),
         evs1 ++ evs2 ++ comboEvs)
      else
        let user := (dictGet odict "user").getD stored.user
        if user = "" then
          (.ok ⟨category, solver, priority, email, user, none⟩,
           evs1 ++ evs2 ++ comboEvs)
        else
          match keyringGet stored.keyring_id user with
          | none =>
            (.ok ⟨category, solver, priority, email, user, none⟩,
             evs1 ++ evs2 ++ comboEvs
               ++ [.logWarning ("No password found in the keyring for NEOS user " ++ user ++ "!"),
                   .logWarning " -> submitting without authentication"])
          | some pwd =>
            (.ok ⟨category, solver, priority, email, user, some pwd⟩,
             evs1 ++ evs2 ++ comboEvs
               ++ [.logInfo ("Submitting as NEOS user " ++ user ++ ".")])

/-! ## `neos_xml_string` (source lines 211-243) -/

/-- Source line 228: option keys consumed by the script itself. -/
def script_options : List String := ["category", "solver", "priority", "email", "user"]

/-- Source lines 229-230: remaining options serialized one `key=value`
per line. -/
def opt_str (odict : List (String × String)) : String :=
  String.intercalate "\n"
    ((odict.filter (fun kv => ¬ script_options.contains kv.1)).map
      (fun kv => kv.1 ++ "=" ++ kv.2))

/-- The opening of the model CDATA section in the f-string of source
lines 232-243. -/
def cdata_open_marker : String := "<model><![CDATA["

/-- The CDATA terminator: the first occurrence of this sequence ends a
CDATA section for a compliant XML parser. -/
def cdata_close : String := "]]>"

/-- The document text before the model element in the f-string of source
lines 232-243. -/
def doc_header (config : NeosRunConfig) : String :=
  "<document>\n\t<category>" ++ config.category
  ++ "</category>\n\t<solver>" ++ config.solver
  ++ "</solver>\n\t<inputMethod>NL</inputMethod>\n\t<priority>" ++ config.priority
  ++ "</priority>\n\t<email>" ++ config.email
  ++ "</email>\n\t"

/-- The document text before the model content in the f-string of source
lines 232-243. -/
def doc_before_model (config : NeosRunConfig) : String :=
  doc_header config ++ cdata_open_marker

/-- The document text after the model CDATA terminator in the f-string of
source lines 232-243. -/
def doc_after_close (odict : List (String × String)) : String :=
  "</model>\n\t<options><![CDATA[" ++ opt_str odict
  ++ "]]></options>\n\t<comments><![CDATA[]]></comments>\n</document>\n"

/-- The document text after the model content in the f-string of source
lines 232-243. -/
def doc_after_model (odict : List (String × String)) : String :=
  cdata_close ++ doc_after_close odict

/-- The value assigned to the local variable `neos_xml` in
`neos_xml_string` (the f-string of source lines 232-243), with the model
file's text `nl_mod_str` spliced into the CDATA section verbatim. -/
def neos_xml_doc (odict : List (String × String)) (nl_mod_str : String)
    (config : NeosRunConfig) : String :=
  doc_before_model config ++ nl_mod_str ++ doc_after_model odict

/-- `neos_xml_string` (source lines 211-243).  The source reads the model
file (its text is the `nl_mod_str` argument here), builds the options
string and the XML document into the local variable `neos_xml` — and then
ends without a `return` statement, so the Python function returns `None`. -/
def neos_xml_string (odict : List (String × String)) (nl_mod_str : String)
    (config : NeosRunConfig) : Option String :=
  let _neos_xml := neos_xml_doc odict nl_mod_str config
  none

/-! ## The job state machine of `solve_nl_file` (source lines 293-341) -/

/-- The short-priority polling loop (source lines 306-317): while the
status is not `Done`, fetch intermediate output from the current offset,
print it, advance the offset to the value the service returned, and
refresh the status.  Each iteration consumes one status answer and one
intermediate-results answer from the service; running out of answers is a
modelling artifact reported as `oracleExhausted`. -/
def poll_short (status : String) (statuses : List String)
    (inter : List (String × Nat)) (offset : Nat) : Except Err Unit × List Event :=
  if status = "Done" then (.ok (), [])
  else
    match statuses with
    | [] => (.error .oracleExhausted, [])
    | st :: sts =>
      match inter with
      | [] => (.error .oracleExhausted, [])
      | (msg, newOffset) :: irest =>
        let q := poll_short st sts irest newOffset
        (q.1, [.getIntermediateResults offset, .printMsg msg, .getJobStatus] ++ q.2)

/-- The long-priority polling loop (source lines 318-327): while the
status is not `Done`, print a heartbeat dot and refresh the status. -/
def poll_long (status : String) (statuses : List String) : Except Err Unit × List Event :=
  if status = "Done" then (.ok (), [])
  else
    match statuses with
    | [] => (.error .oracleExhausted, [])
    | st :: sts =>
      let q := poll_long st sts
      (q.1, [.printMsg ".", .getJobStatus] ++ q.2)

/-- Finalization (source lines 329-341): fetch and print the final
results, log the completion code, fetch `ampl.sol` and write it next to
the model file with the suffix replaced by `.sol`. -/
def finalize_job (nl_file : FPath) (svc : NeosService) : List Event :=
  [.getFinalResults, .printMsg svc.finalMsg, .getCompletionCode,
   .logInfo ("NEOS completion code: " ++ svc.completionCode),
   .getOutputFile "ampl.sol",
   .writeFile (nl_file.withSuffix ".sol") svc.outputFile]

/-- The part of the job run after the submission call (source lines
299-341): the zero-job-id check, the initial status fetch with its sanity
assertion, the priority-dependent polling loop, and finalization. -/
def run_neos_job_after_submit (nl_file : FPath) (config : NeosRunConfig)
    (svc : NeosService) : Except Err Unit × List Event :=
  if svc.submitResult.1 = 0 then
    (.error (.runtimeError "NEOS job submission failed!"), [])
  else
    -- initial status and sanity assertion (source lines 303-304)
    match svc.statuses with
    | [] => (.error .oracleExhausted, [.getJobStatus])
    | status :: sts =>
      if ¬ (status = "Waiting" ∨ status = "Running" ∨ status = "Done") then
        (.error (.assertionError "check status"), [.getJobStatus])
      else
        let q :=
          if config.priority = "short" then
            poll_short status sts svc.inter 0
          else
            let q' := poll_long status sts
            (q'.1, [Event.printMsg "Job running with long priority -> no intermediate output",
                    Event.printMsg "Please wait"] ++ q'.2)
        match q.1 with
        | .error e => (.error e, Event.getJobStatus :: q.2)
        | .ok _ => (.ok (), Event.getJobStatus :: q.2 ++ finalize_job nl_file svc)

/-- The job submission / polling / retrieval part of `solve_nl_file`
(source lines 293-341), starting from the local state at line 293: the
model path, the value of the local variable `neos_xml` (which is `None`,
see `neos_xml_string`), and the resolved configuration.  In the source
this code is unreachable (see `solve_nl_file` below); it is embedded
separately so its state machine can be examined.  Submission dispatch
(source lines 294-298): authenticated when a password was resolved —
with the source's `assert config['user'] != ''` consistency check —
anonymous otherwise. -/
def run_neos_job (nl_file : FPath) (neos_xml : Option String)
    (config : NeosRunConfig) (svc : NeosService) : Except Err Unit × List Event :=
  match config.pwd with
  | some p =>
    if config.user = "" then (.error (.assertionError "consistency check"), [])
    else
      let t := run_neos_job_after_submit nl_file config svc
      (t.1, Event.authenticatedSubmitJob neos_xml config.user p :: t.2)
  | none =>
    let t := run_neos_job_after_submit nl_file config svc
    (t.1, Event.submitJob neos_xml :: t.2)

/-! ## `solve_nl_file` (source lines 246-341) -/

/-- The first-byte format check of source lines 262-275: `'b'` (binary NL
file) raises `ValueError`, `'g'` (ASCII NL file) passes, anything else —
including an empty file — logs an error and continues. -/
def nl_format_check (content : String) : Except Err (List Event) :=
  match content.toList.head? with
  | some 'b' => .error (.valueError "NL file is in binary format, this is not supported!")
  | some 'g' => .ok []
  | _ => .ok [.logError "Could not detect format of NL file - expect problems!"]

/-- `solve_nl_file` (source lines 246-341).  The file system is passed in
as `is_file` and `content`, the `neos_options` environment variable as
`options_str`.  After the format check and the API connection, source
line 286 calls `get_neos_config(neos)` with a single argument while the
function's definition (line 134) requires both `odict` and `neos`: Python
raises `TypeError` at that call, before `neos_xml_string` and before any
job submission. -/
def solve_nl_file (_nl_file : FPath) (is_file : Bool) (content : String)
    (options_str : String) (stored : StoredConfig) (svc : NeosService) :
    Except Err Unit × List Event :=
  if ¬ is_file then
    (.error (.fileNotFound "NL file not found!"), [])
  else
    match nl_format_check content with
    | .error e => (.error e, [])
    | .ok evs0 =>
      let odict := parse_neos_options options_str
      match get_neos_api (dictGet odict "server") stored svc with
      | (.error e, evs1) => (.error e, evs0 ++ evs1)
      | (.ok _, evs1) =>
        (.error (.typeError
          "get_neos_config() missing 1 required positional argument: neos"),
         evs0 ++ evs1)

theorem get_neos_api_eq (server_uri : Option String) (stored : StoredConfig)
    (svc : NeosService) :
    get_neos_api server_uri stored svc =
      if resolved_server server_uri stored = "" then
        (.error (.exitError "NEOS server URI not provided!"), [])
      else if svc.pingOk then (.ok (), [.ping])
      else (.error (.exitError "Could not reach the NEOS server"), [.ping]) := rfl

/-! ## Event classifiers -/

/-- Remote XML-RPC calls. -/
def Event.isRemoteCall : Event → Bool
  | .ping | .listCategories | .listSolversInCategory _ | .listAllSolvers
  | .submitJob _ | .authenticatedSubmitJob _ _ _ | .getJobStatus
  | .getIntermediateResults _ | .getFinalResults | .getCompletionCode
  | .getOutputFile _ => true
  | _ => false

/-- Job-submission calls (anonymous or authenticated). -/
def Event.isSubmitCall : Event → Bool
  | .submitJob _ | .authenticatedSubmitJob _ _ _ => true
  | _ => false

/-- Payload construction. -/
def Event.isBuildPayload : Event → Bool
  | .buildPayload => true
  | _ => false

/-- Intermediate-results fetches. -/
def Event.isInterFetch : Event → Bool
  | .getIntermediateResults _ => true
  | _ => false

/-- Final-results fetches (start of finalization). -/
def Event.isFinalFetch : Event → Bool
  | .getFinalResults => true
  | _ => false

/-- Solution-file writes. -/
def Event.isWriteFile : Event → Bool
  | .writeFile _ _ => true
  | _ => false

/-- Valid-solver enumerations in the log. -/
def Event.isSolverListLog : Event → Bool
  | .logSolverList _ => true
  | _ => false

/-- The offsets passed to the successive intermediate-results calls of a
trace. -/
def interCursors (evs : List Event) : List Nat :=
  evs.filterMap (fun e =>
    match e with
    | .getIntermediateResults off => some off
    | _ => none)

/-! ## Lemmas about the string primitives -/

theorem foldr_wsStep_nonws (t : List Char) (toks : List (List Char))
    (hwf : t.all (fun c => !isWs c) = true) :
    t.foldr wsStep ([], toks) = (t, toks) := by
  induction t with
  | nil => rfl
  | cons c t' ih =>
    simp only [List.all_cons, Bool.and_eq_true, Bool.not_eq_true'] at hwf
    simp only [List.foldr_cons, ih hwf.2, wsStep, hwf.1, Bool.false_eq_true, if_false]

theorem foldr_wsStep_wf (l : List Char) :
    (l.foldr wsStep ([], [])).1.all (fun c => !isWs c) = true
    ∧ ∀ t ∈ (l.foldr wsStep ([], [])).2, t ≠ [] ∧ t.all (fun c => !isWs c) = true := by
  induction l with
  | nil => simp
  | cons c cs ih =>
    obtain ⟨h1, h2⟩ := ih
    simp only [List.foldr_cons]
    rcases hs : cs.foldr wsStep ([], []) with ⟨cur, toks⟩
    rw [hs] at h1 h2
    by_cases hc : isWs c
    · simp only [wsStep, hc, if_true]
      refine ⟨by simp, ?_⟩
      by_cases hcur : cur = []
      · simpa [hcur] using h2
      · simp only [hcur, if_false]
        intro t ht
        rcases List.mem_cons.mp ht with rfl | ht'
        · exact ⟨hcur, h1⟩
        · exact h2 t ht'
    · simp only [wsStep, hc, Bool.false_eq_true, if_false]
      exact ⟨by simp [hc, h1], h2⟩

theorem wsSplit_tokens_wf :
    ∀ l t, t ∈ wsSplit l → t ≠ [] ∧ t.all (fun c => !isWs c) = true := by
  intro l t ht
  obtain ⟨h1, h2⟩ := foldr_wsStep_wf l
  rw [wsSplit] at ht
  rcases hs : l.foldr wsStep ([], []) with ⟨cur, toks⟩
  rw [hs] at ht h1 h2
  by_cases hcur : cur = []
  · simp only [hcur, if_true] at ht
    exact h2 t ht
  · simp only [hcur, if_false] at ht
    rcases List.mem_cons.mp ht with rfl | ht'
    · exact ⟨hcur, h1⟩
    · exact h2 t ht'

/-- Tokens joined by single spaces (the char-level view of
`serialize_neos_options`). -/
def joinSp : List (List Char) → List Char
  | [] => []
  | [t] => t
  | t :: rest => t ++ ' ' :: joinSp rest

theorem foldr_wsStep_ws_head (l : List Char)
    (hl : l = [] ∨ ∃ d ds, l = d :: ds ∧ isWs d = true) :
    (l.foldr wsStep ([], [])).1 = [] ∧ (l.foldr wsStep ([], [])).2 = wsSplit l := by
  rcases hl with rfl | ⟨d, ds, rfl, hd⟩
  · simp [wsSplit]
  · simp only [List.foldr_cons]
    rcases hs : ds.foldr wsStep ([], []) with ⟨cur, toks⟩
    simp only [wsStep, hd, if_true]
    constructor
    · trivial
    · rw [wsSplit]
      simp only [List.foldr_cons, hs, wsStep, hd, if_true]

theorem wsSplit_token_append (t : List Char) (l : List Char)
    (ht : t ≠ []) (hwf : t.all (fun c => !isWs c) = true)
    (hl : l = [] ∨ ∃ d ds, l = d :: ds ∧ isWs d = true) :
    wsSplit (t ++ l) = t :: wsSplit l := by
  obtain ⟨hcur, htoks⟩ := foldr_wsStep_ws_head l hl
  rw [wsSplit, List.foldr_append]
  rcases hs : l.foldr wsStep ([], []) with ⟨cur, toks⟩
  rw [hs] at hcur htoks
  dsimp only at hcur htoks
  subst hcur
  rw [foldr_wsStep_nonws t toks hwf]
  simp only [ht, if_false, htoks]

theorem wsSplit_joinSp (ts : List (List Char))
    (h : ∀ t ∈ ts, t ≠ [] ∧ t.all (fun c => !isWs c) = true) :
    wsSplit (joinSp ts) = ts := by
  induction ts with
  | nil => simp [joinSp, wsSplit]
  | cons t rest ih =>
    cases rest with
    | nil =>
      obtain ⟨ht, hwf⟩ := h t (by simp)
      have h0 := wsSplit_token_append t [] ht hwf (Or.inl rfl)
      simp only [List.append_nil] at h0
      show wsSplit t = [t]
      rw [h0]
      simp [wsSplit]
    | cons t2 rest' =>
      obtain ⟨ht, hwf⟩ := h t (by simp)
      show wsSplit (t ++ ' ' :: joinSp (t2 :: rest')) = t :: (t2 :: rest')
      rw [wsSplit_token_append t _ ht hwf (Or.inr ⟨' ', _, rfl, by decide⟩)]
      have hskip : wsSplit (' ' :: joinSp (t2 :: rest')) = wsSplit (joinSp (t2 :: rest')) := by
        rw [wsSplit, wsSplit]
        simp only [List.foldr_cons]
        rcases hs : (joinSp (t2 :: rest')).foldr wsStep ([], []) with ⟨cur, toks⟩
        simp [wsStep, isWs]
      rw [hskip, ih (fun u hu => h u (List.mem_cons_of_mem t hu))]

theorem splitFirst_append_sep (sep : Char) (a b : List Char)
    (ha : a.all (fun c => c != sep) = true) :
    splitFirst sep (a ++ sep :: b) = some (a, b) := by
  induction a with
  | nil => simp [splitFirst]
  | cons c a' ih =>
    simp only [List.all_cons, Bool.and_eq_true, bne_iff_ne, ne_eq] at ha
    obtain ⟨hc, ha'⟩ := ha
    show splitFirst sep (c :: (a' ++ sep :: b)) = some (c :: a', b)
    rw [splitFirst, if_neg hc, ih (by simpa using ha')]

theorem splitFirst_eq_some (sep : Char) :
    ∀ l a b, splitFirst sep l = some (a, b) →
      l = a ++ sep :: b ∧ a.all (fun c => c != sep) = true := by
  intro l
  induction l with
  | nil => intro a b h; simp [splitFirst] at h
  | cons c cs ih =>
    intro a b h
    by_cases hc : c = sep
    · rw [splitFirst, if_pos hc] at h
      simp only [Option.some.injEq, Prod.mk.injEq] at h
      obtain ⟨ha, hb⟩ := h
      subst ha; subst hb; subst hc
      simp
    · rw [splitFirst, if_neg hc] at h
      cases hrec : splitFirst sep cs with
      | none => rw [hrec] at h; simp at h
      | some p =>
        obtain ⟨a', b'⟩ := p
        rw [hrec] at h
        simp only [Option.some.injEq, Prod.mk.injEq] at h
        obtain ⟨hcs, ha'⟩ := ih a' b' hrec
        refine ⟨?_, ?_⟩
        · rw [← h.1, ← h.2, hcs]; rfl
        · rw [← h.1]; simp [hc, ha']

theorem dropWhile_isWs_eq_self (l : List Char)
    (h : l.all (fun c => !isWs c) = true) : l.dropWhile isWs = l := by
  cases l with
  | nil => rfl
  | cons c cs =>
    simp only [List.all_cons, Bool.and_eq_true, Bool.not_eq_true'] at h
    simp [List.dropWhile, h.1]

theorem pyStrip_eq_self (l : List Char)
    (h : l.all (fun c => !isWs c) = true) : pyStrip l = l := by
  rw [pyStrip, dropWhile_isWs_eq_self l h, dropWhile_isWs_eq_self, List.reverse_reverse]
  simpa using h

theorem toNat_ofNat_valid (n : Nat) (h : n.isValidChar) : (Char.ofNat n).toNat = n := by
  simp [Char.ofNat, h, Char.toNat, Char.ofNatAux, UInt32.toNat, BitVec.toNat_ofNatLt]

theorem pyLowerChar_toNat_of_upper (c : Char) (h : 65 ≤ c.toNat ∧ c.toNat ≤ 90) :
    (pyLowerChar c).toNat = c.toNat + 32 := by
  have hv : (c.toNat + 32).isValidChar := Or.inl (by omega)
  rw [pyLowerChar, if_pos h]
  exact toNat_ofNat_valid _ hv

theorem toNat_ge_97_not_ws (c : Char) (h : 97 ≤ c.toNat) : isWs c = false := by
  have h32 : (' ' : Char).toNat = 32 := rfl
  have h9 : ('\t' : Char).toNat = 9 := rfl
  have h13 : ('\r' : Char).toNat = 13 := rfl
  have h10 : ('\n' : Char).toNat = 10 := rfl
  simp only [isWs, Char.isWhitespace, Bool.or_eq_false_iff, decide_eq_false_iff_not]
  refine ⟨⟨⟨?_, ?_⟩, ?_⟩, ?_⟩ <;> rintro rfl <;> omega

theorem toNat_ge_97_ne_eq_char (c : Char) (h : 97 ≤ c.toNat) : (c != '=') = true := by
  have h61 : ('=' : Char).toNat = 61 := rfl
  simp only [bne_iff_ne, ne_eq]
  rintro rfl
  omega

theorem pyLowerChar_idem (c : Char) : pyLowerChar (pyLowerChar c) = pyLowerChar c := by
  by_cases h : 65 ≤ c.toNat ∧ c.toNat ≤ 90
  · have ht := pyLowerChar_toNat_of_upper c h
    rw [pyLowerChar, if_neg (by omega)]
  · have hc : pyLowerChar c = c := by rw [pyLowerChar, if_neg h]
    rw [hc, hc]

theorem pyLower_idem (l : List Char) : pyLower (pyLower l) = pyLower l := by
  simp only [pyLower, List.map_map]
  exact List.map_congr_left (fun c _ => pyLowerChar_idem c)

theorem pyLowerChar_not_ws (c : Char) (h : isWs c = false) : isWs (pyLowerChar c) = false := by
  by_cases hc : 65 ≤ c.toNat ∧ c.toNat ≤ 90
  · exact toNat_ge_97_not_ws _ (by rw [pyLowerChar_toNat_of_upper c hc]; omega)
  · rwa [pyLowerChar, if_neg hc]

theorem pyLowerChar_ne_eq_char (c : Char) (h : (c != '=') = true) :
    (pyLowerChar c != '=') = true := by
  by_cases hc : 65 ≤ c.toNat ∧ c.toNat ≤ 90
  · exact toNat_ge_97_ne_eq_char _ (by rw [pyLowerChar_toNat_of_upper c hc]; omega)
  · rwa [pyLowerChar, if_neg hc]

/-! ## Dict lemmas -/

theorem dictUpd_mem (d : List (String × String)) (k v : String) :
    ∀ kv ∈ dictUpd d k v, kv = (k, v) ∨ kv ∈ d := by
  induction d with
  | nil => simp [dictUpd]
  | cons p rest ih =>
    obtain ⟨k', v'⟩ := p
    intro kv hkv
    by_cases hk : k' = k
    · rw [dictUpd, if_pos hk] at hkv
      rcases List.mem_cons.mp hkv with rfl | h
      · exact Or.inl rfl
      · exact Or.inr (List.mem_cons_of_mem _ h)
    · rw [dictUpd, if_neg hk] at hkv
      rcases List.mem_cons.mp hkv with rfl | h
      · exact Or.inr (List.mem_cons_self _ _)
      · rcases ih kv h with h' | h'
        · exact Or.inl h'
        · exact Or.inr (List.mem_cons_of_mem _ h')

theorem dictUpd_keys (d : List (String × String)) (k v : String) :
    (dictUpd d k v).map Prod.fst =
      if (d.map Prod.fst).contains k then d.map Prod.fst else d.map Prod.fst ++ [k] := by
  induction d with
  | nil => simp [dictUpd]
  | cons p rest ih =>
    obtain ⟨k', v'⟩ := p
    by_cases hk : k' = k
    · subst hk
      simp [dictUpd]
    · rw [dictUpd, if_neg hk]
      simp only [List.map_cons, List.contains_cons, ih]
      have hne : (k == k') = false := by simp [Ne.symm hk]
      rw [hne, Bool.false_or]
      by_cases hc : (rest.map Prod.fst).contains k = true
      · rw [if_pos hc, if_pos hc]
      · rw [if_neg hc, if_neg hc, List.cons_append]

theorem dictUpd_keys_nodup (d : List (String × String)) (k v : String)
    (h : (d.map Prod.fst).Nodup) : ((dictUpd d k v).map Prod.fst).Nodup := by
  rw [dictUpd_keys]
  by_cases hc : (d.map Prod.fst).contains k = true
  · rw [if_pos hc]; exact h
  · rw [if_neg hc]
    have hk : k ∉ d.map Prod.fst := fun hmem =>
      hc (List.elem_eq_true_of_mem hmem)
    exact List.nodup_append.mpr
      ⟨h, List.nodup_singleton k, fun a ha hb => by
        rw [List.mem_singleton] at hb
        exact hk (hb ▸ ha)⟩

theorem dictUpd_not_mem_append (d : List (String × String)) (k v : String)
    (h : (d.map Prod.fst).contains k = false) : dictUpd d k v = d ++ [(k, v)] := by
  induction d with
  | nil => rfl
  | cons p rest ih =>
    obtain ⟨k', v'⟩ := p
    simp only [List.map_cons, List.contains_cons, Bool.or_eq_false_iff, beq_eq_false_iff_ne,
      ne_eq] at h
    rw [dictUpd, if_neg (fun hk => h.1 hk.symm), ih h.2]
    rfl

/-! ## Invariants of parsed option maps -/

/-- Shape of every entry `parse_neos_options` can produce: the key is free
of whitespace and `=` and already lower-case, the value is free of
whitespace. -/
def GoodEntry (kv : String × String) : Prop :=
  kv.1.toList.all (fun c => !isWs c && (c != '=')) = true
  ∧ pyLower kv.1.toList = kv.1.toList
  ∧ kv.2.toList.all (fun c => !isWs c) = true

theorem parseTok_invariant (d : List (String × String)) (tok : List Char)
    (htok : tok.all (fun c => !isWs c) = true)
    (hd : ∀ kv ∈ d, GoodEntry kv) :
    ∀ kv ∈ parseTok d tok, GoodEntry kv := by
  intro kv hkv
  rw [parseTok] at hkv
  cases hsp : splitFirst '=' tok with
  | none => rw [hsp] at hkv; exact hd kv hkv
  | some p =>
    obtain ⟨k, v⟩ := p
    rw [hsp] at hkv
    obtain ⟨htk, hknoeq⟩ := splitFirst_eq_some '=' tok k v hsp
    rw [htk, List.all_append, Bool.and_eq_true, List.all_cons, Bool.and_eq_true] at htok
    obtain ⟨hkws, -, hvws⟩ := htok
    rcases dictUpd_mem d _ _ kv hkv with rfl | hmem
    · refine ⟨?_, ?_, ?_⟩
      · show ((String.mk (pyLower (pyStrip k))).toList.all fun c => !isWs c && (c != '=')) = true
        rw [pyStrip_eq_self k hkws]
        show ((pyLower k).all fun c => !isWs c && (c != '=')) = true
        rw [List.all_eq_true]
        intro c hc
        rw [pyLower, List.mem_map] at hc
        obtain ⟨c0, hc0, rfl⟩ := hc
        rw [List.all_eq_true] at hkws hknoeq
        rw [Bool.and_eq_true]
        exact ⟨by simpa using pyLowerChar_not_ws c0 (by simpa using hkws c0 hc0),
               pyLowerChar_ne_eq_char c0 (hknoeq c0 hc0)⟩
      · show pyLower (String.mk (pyLower (pyStrip k))).toList = (String.mk (pyLower (pyStrip k))).toList
        rw [pyStrip_eq_self k hkws]
        exact pyLower_idem k
      · show ((String.mk (pyStrip v)).toList.all fun c => !isWs c) = true
        rw [pyStrip_eq_self v hvws]
        exact hvws
    · exact hd kv hmem

theorem parse_foldl_good (toks : List (List Char)) :
    ∀ d, (∀ t ∈ toks, t.all (fun c => !isWs c) = true) →
      (∀ kv ∈ d, GoodEntry kv) →
      ∀ kv ∈ toks.foldl parseTok d, GoodEntry kv := by
  induction toks with
  | nil => intro d _ hd; simpa using hd
  | cons t rest ih =>
    intro d htoks hd
    rw [List.foldl_cons]
    exact ih (parseTok d t)
      (fun u hu => htoks u (List.mem_cons_of_mem t hu))
      (parseTok_invariant d t (htoks t (List.mem_cons_self t rest)) hd)

theorem parse_neos_options_good (s : String) :
    ∀ kv ∈ parse_neos_options s, GoodEntry kv := by
  rw [parse_neos_options]
  exact parse_foldl_good _ _ (fun t ht => (wsSplit_tokens_wf _ t ht).2) (by simp)

theorem parseTok_keys_nodup (d : List (String × String)) (tok : List Char)
    (h : (d.map Prod.fst).Nodup) : ((parseTok d tok).map Prod.fst).Nodup := by
  rw [parseTok]
  cases splitFirst '=' tok with
  | none => exact h
  | some p => exact dictUpd_keys_nodup d _ _ h

theorem parse_foldl_keys_nodup (toks : List (List Char)) :
    ∀ d, (d.map Prod.fst).Nodup → ((toks.foldl parseTok d).map Prod.fst).Nodup := by
  induction toks with
  | nil => intro d hd; simpa using hd
  | cons t rest ih =>
    intro d hd
    rw [List.foldl_cons]
    exact ih (parseTok d t) (parseTok_keys_nodup d t hd)

theorem parse_neos_options_keys_nodup (s : String) :
    ((parse_neos_options s).map Prod.fst).Nodup := by
  rw [parse_neos_options]
  exact parse_foldl_keys_nodup _ [] (by simp)

/-! ## Round trip: parsing the serialized form of a parsed map -/

/-- The char-level form of one serialized entry, `key=value`. -/
def renderTok (kv : String × String) : List Char :=
  kv.1.toList ++ '=' :: kv.2.toList

theorem toList_append (s t : String) : (s ++ t).toList = s.toList ++ t.toList := rfl

theorem serialize_toList (l : List (String × String)) :
    (serialize_neos_options l).toList = joinSp (l.map renderTok) := by
  induction l with
  | nil => rfl
  | cons kv rest ih =>
    cases rest with
    | nil =>
      show ((kv.1 ++ "=" ++ kv.2).toList : List Char) = joinSp [renderTok kv]
      simp [toList_append, joinSp, renderTok]
    | cons r rest' =>
      show ((kv.1 ++ "=" ++ kv.2 ++ " " ++ serialize_neos_options (r :: rest')).toList : List Char)
        = joinSp (renderTok kv :: (r :: rest').map renderTok)
      rw [toList_append, toList_append, toList_append, ih]
      show kv.1.toList ++ ['='] ++ kv.2.toList ++ [' '] ++ joinSp ((r :: rest').map renderTok)
        = (renderTok kv) ++ ' ' :: joinSp ((r :: rest').map renderTok)
      simp [renderTok]

theorem goodEntry_key_ws (kv : String × String) (hk : kv.1.toList.all
    (fun c => !isWs c && (c != '=')) = true) :
    kv.1.toList.all (fun c => !isWs c) = true := by
  rw [List.all_eq_true] at hk ⊢
  intro c hc
  have h := hk c hc
  rw [Bool.and_eq_true] at h
  exact h.1

theorem goodEntry_key_noeq (kv : String × String) (hk : kv.1.toList.all
    (fun c => !isWs c && (c != '=')) = true) :
    kv.1.toList.all (fun c => c != '=') = true := by
  rw [List.all_eq_true] at hk ⊢
  intro c hc
  have h := hk c hc
  rw [Bool.and_eq_true] at h
  exact h.2

theorem renderTok_wf (kv : String × String) (h : GoodEntry kv) :
    renderTok kv ≠ [] ∧ (renderTok kv).all (fun c => !isWs c) = true := by
  obtain ⟨hk, -, hv⟩ := h
  refine ⟨by simp [renderTok], ?_⟩
  rw [renderTok, List.all_append, List.all_cons, goodEntry_key_ws kv hk, hv]
  decide

theorem contains_eq_false_of_not_mem {x : String} {l : List String} (h : x ∉ l) :
    l.contains x = false := by
  cases hc : l.contains x
  · rfl
  · exact absurd (List.mem_of_elem_eq_true hc) h

theorem not_mem_of_contains_eq_false {x : String} {l : List String}
    (h : l.contains x = false) : x ∉ l := by
  intro hm
  have h1 : l.contains x = true := List.elem_eq_true_of_mem hm
  rw [h1] at h
  simp at h

theorem parseTok_renderTok (d : List (String × String)) (kv : String × String)
    (h : GoodEntry kv) : parseTok d (renderTok kv) = dictUpd d kv.1 kv.2 := by
  obtain ⟨hk, hlow, hv⟩ := h
  rw [parseTok, renderTok, splitFirst_append_sep '=' _ _ (goodEntry_key_noeq kv hk)]
  show dictUpd d (String.mk (pyLower (pyStrip kv.1.toList)))
      (String.mk (pyStrip kv.2.toList)) = dictUpd d kv.1 kv.2
  rw [pyStrip_eq_self _ (goodEntry_key_ws kv hk), pyStrip_eq_self _ hv, hlow]
  rfl

theorem foldl_parseTok_render (l : List (String × String)) :
    ∀ d, (∀ kv ∈ l, GoodEntry kv) → (l.map Prod.fst).Nodup →
      (∀ kv ∈ l, (d.map Prod.fst).contains kv.1 = false) →
      (l.map renderTok).foldl parseTok d = d ++ l := by
  induction l with
  | nil => intro d _ _ _; simp
  | cons kv rest ih =>
    intro d hg hnd hdisj
    rw [List.map_cons, List.foldl_cons,
      parseTok_renderTok d kv (hg kv (List.mem_cons_self kv rest)),
      dictUpd_not_mem_append d kv.1 kv.2 (hdisj kv (List.mem_cons_self kv rest))]
    rw [List.map_cons, List.nodup_cons] at hnd
    have hrec := ih (d ++ [(kv.1, kv.2)])
      (fun u hu => hg u (List.mem_cons_of_mem kv hu))
      hnd.2
      (fun u hu => by
        apply contains_eq_false_of_not_mem
        rw [List.map_append, List.mem_append]
        rintro (hmem | hmem)
        · exact not_mem_of_contains_eq_false
            (hdisj u (List.mem_cons_of_mem kv hu)) hmem
        · simp only [List.map_cons, List.map_nil, List.mem_singleton] at hmem
          exact hnd.1 (hmem ▸ List.mem_map_of_mem Prod.fst hu))
    rw [hrec]
    simp

/-- What the round-trip theorem needs of the example string is checked by
`decide` inside the proof of the claim theorem. -/
theorem parse_serialize_parse (s : String) (l : List (String × String))
    (hl : l.Perm (parse_neos_options s)) :
    parse_neos_options (serialize_neos_options l) = l := by
  have hg : ∀ kv ∈ l, GoodEntry kv :=
    fun kv h => parse_neos_options_good s kv (hl.subset h)
  have hnd : (l.map Prod.fst).Nodup :=
    ((hl.map Prod.fst).nodup_iff).mpr (parse_neos_options_keys_nodup s)
  rw [parse_neos_options, serialize_toList,
    wsSplit_joinSp _ (fun t ht => by
      rw [List.mem_map] at ht
      obtain ⟨kv, hkv, rfl⟩ := ht
      exact renderTok_wf kv (hg kv hkv)),
    foldl_parseTok_render l [] hg hnd (by simp)]
  simp

/-! ## Claim C10 -/

/-- C10: option parsing is idempotent: serializing any reordering of a
parsed map back to whitespace-separated `key=value` tokens and re-parsing
reproduces that map exactly (hence the same mapping as the original
parse); and parsing lower-cases keys, drops tokens without `=`, keeps `=`
inside values, and lets a later duplicate key overwrite an earlier one. -/
theorem c10_parse_options_idempotent (s : String) (l : List (String × String))
    (hl : l.Perm (parse_neos_options s)) :
    parse_neos_options (serialize_neos_options l) = l
    ∧ (parse_neos_options (serialize_neos_options l)).Perm (parse_neos_options s)
    ∧ parse_neos_options "A=1 junk B=2=3 a=0" = [("a", "0"), ("b", "2=3")] := by
  have hmain := parse_serialize_parse s l hl
  exact ⟨hmain, hmain.symm ▸ hl, by decide⟩

/-- C10 witness: the round trip evaluated on a concrete option string and
a concrete reordering of its parse. -/
theorem c10_witness :
    ([("b", "2=3"), ("a", "0")] : List (String × String)).Perm
      (parse_neos_options "A=1 junk B=2=3 a=0")
    ∧ parse_neos_options (serialize_neos_options [("b", "2=3"), ("a", "0")])
      = [("b", "2=3"), ("a", "0")] := by
  have hp : ([("b", "2=3"), ("a", "0")] : List (String × String)).Perm
      (parse_neos_options "A=1 junk B=2=3 a=0") := by decide
  exact ⟨hp, (c10_parse_options_idempotent "A=1 junk B=2=3 a=0" _ hp).1⟩

/-! ## Claim C1 -/

/-- C1: the claim says `neos_xml_string` returns a submission document
containing the resolved category, solver, the `NL` marker, priority,
email, the model text and the filtered options.  The source builds that
document into a local variable but ends without a `return` statement, so
the function returns `None` for every input — the claim describes the
documented intent, not what the code does. -/
theorem c1_neos_xml_string_returns_none (odict : List (String × String))
    (nl_mod_str : String) (config : NeosRunConfig) :
    neos_xml_string odict nl_mod_str config = none := rfl

/-! ## Claim C2 -/

/-- C2: for every existing ASCII (first byte `'g'`) model file and every
options string, `solve_nl_file` fails with the `TypeError` raised by
calling `get_neos_config` with the connection object as its only
argument, before any payload construction and before any job-submission
call (assuming the server URI resolves non-empty and the service answers
the ping, the state in which line 286 is reached). -/
theorem c2_solve_fails_before_submission (p : FPath) (content options_str : String)
    (stored : StoredConfig) (svc : NeosService)
    (hg : content.toList.head? = some 'g')
    (hping : svc.pingOk = true)
    (hsrv : resolved_server (dictGet (parse_neos_options options_str) "server") stored ≠ "") :
    (solve_nl_file p true content options_str stored svc).1
      = .error (.typeError "get_neos_config() missing 1 required positional argument: neos")
    ∧ (solve_nl_file p true content options_str stored svc).2.all
        (fun e => !e.isSubmitCall && !e.isBuildPayload) = true := by
  rw [solve_nl_file, nl_format_check, hg]
  simp only [get_neos_api_eq, if_neg hsrv, hping, if_true]
  exact ⟨rfl, by decide⟩

/-- C2 witness: the `TypeError` failure evaluated on a concrete model
file, options string, configuration and service. -/
theorem c2_witness :
    (solve_nl_file ⟨"model", ".nl"⟩ true "g 3 1 1 0" "solver=CPLEX"
        ⟨"https://neos-server.org:3333", "milp", "FICO-Xpress", ["Gurobi"], "a@b.c", "",
          "NEOS Server"⟩
        ⟨true, [], fun _ => [], [], (42, "pw"), ["Done"], [], "fin", "0", "sol"⟩).1
      = .error (.typeError "get_neos_config() missing 1 required positional argument: neos") :=
  (c2_solve_fails_before_submission ⟨"model", ".nl"⟩ "g 3 1 1 0" "solver=CPLEX"
    ⟨"https://neos-server.org:3333", "milp", "FICO-Xpress", ["Gurobi"], "a@b.c", "",
      "NEOS Server"⟩
    ⟨true, [], fun _ => [], [], (42, "pw"), ["Done"], [], "fin", "0", "sol"⟩
    (by decide) rfl (by decide)).1

/-! ## Claim C9 -/

/-- C9: a model file whose first byte is the binary sentinel `'b'` makes
`solve_nl_file` raise `ValueError` before any remote call; a file whose
first byte is the ASCII sentinel `'g'` passes the format check cleanly
and never fails with the format error. -/
theorem c9_first_byte_detection (p : FPath) (cb cg os : String)
    (st : StoredConfig) (svc : NeosService)
    (hb : cb.toList.head? = some 'b')
    (hg : cg.toList.head? = some 'g') :
    nl_format_check cb
      = .error (.valueError "NL file is in binary format, this is not supported!")
    ∧ (solve_nl_file p true cb os st svc).1
      = .error (.valueError "NL file is in binary format, this is not supported!")
    ∧ (solve_nl_file p true cb os st svc).2.all (fun e => !e.isRemoteCall) = true
    ∧ nl_format_check cg = .ok []
    ∧ (solve_nl_file p true cg os st svc).1
      ≠ .error (.valueError "NL file is in binary format, this is not supported!") := by
  have hfb : nl_format_check cb
      = .error (.valueError "NL file is in binary format, this is not supported!") := by
    rw [nl_format_check, hb]
    rfl
  have hfg : nl_format_check cg = .ok [] := by
    rw [nl_format_check, hg]
    rfl
  refine ⟨hfb, ?_, ?_, hfg, ?_⟩
  · rw [solve_nl_file]
    simp only [hfb]
    rfl
  · rw [solve_nl_file]
    simp only [hfb]
    decide
  · rw [solve_nl_file]
    simp only [hfg]
    rw [get_neos_api_eq]
    by_cases h1 : resolved_server (dictGet (parse_neos_options os) "server") st = ""
    · simp [h1]
    · by_cases h2 : svc.pingOk
      · simp [h1, h2]
      · simp [h1, h2]

/-- C9 witness: both format-check outcomes evaluated on concrete files. -/
theorem c9_witness :
    nl_format_check "b 3 1 1 0"
      = .error (.valueError "NL file is in binary format, this is not supported!")
    ∧ nl_format_check "g 3 1 1 0" = .ok [] := by
  have h := c9_first_byte_detection ⟨"model", ".nl"⟩ "b 3 1 1 0" "g 3 1 1 0" ""
    ⟨"https://neos-server.org:3333", "milp", "FICO-Xpress", ["Gurobi"], "a@b.c", "",
      "NEOS Server"⟩
    ⟨true, [], fun _ => [], [], (42, "pw"), ["Done"], [], "fin", "0", "sol"⟩
    (by decide) (by decide)
  exact ⟨h.1, h.2.2.2.1⟩

/-! ## Claim C4 -/

/-- C4: with stored category `milp`, stored solver `FICO-Xpress` and an
empty options map, resolution returns exactly those values, priority
`short`, and the stored email (options are checked first, and the empty
map falls back to the stored configuration); when the stored email is
empty, resolution fails with the email exception. -/
theorem c4_stored_defaults (stored1 stored2 : StoredConfig)
    (svc svc2 : NeosService) (kr kr2 : String → String → Option String)
    (h1c : stored1.category = "milp") (h1s : stored1.solver = "FICO-Xpress")
    (h1e : stored1.email ≠ "")
    (h2c : stored2.category = "milp") (h2s : stored2.solver = "FICO-Xpress")
    (h2e : stored2.email = "") :
    (get_neos_config [] stored1 svc kr).1
      = .ok ⟨"milp", "FICO-Xpress", "short", stored1.email, stored1.user,
          if stored1.user = "" then none else kr stored1.keyring_id stored1.user⟩
    ∧ (get_neos_config [] stored2 svc2 kr2).1
      = .error (.exception "NEOS requires email for problem submissions, please specify it.") := by
  constructor
  · obtain ⟨srv, cat, sol, forb, email, user, kid⟩ := stored1
    simp only at h1c h1s h1e
    subst h1c h1s
    by_cases hu : user = ""
    · subst hu
      simp [get_neos_config, resolve_category, resolve_solver, dictGet, h1e]
    · cases hkr : kr kid user with
      | none =>
        simp [get_neos_config, resolve_category, resolve_solver, dictGet, h1e, hu, hkr]
      | some pw =>
        simp [get_neos_config, resolve_category, resolve_solver, dictGet, h1e, hu, hkr]
  · obtain ⟨srv, cat, sol, forb, email, user, kid⟩ := stored2
    simp only at h2c h2s h2e
    subst h2c h2s h2e
    simp [get_neos_config, resolve_category, resolve_solver, dictGet]

/-- C4 witness: both resolution outcomes evaluated on concrete stored
configurations. -/
theorem c4_witness :
    (get_neos_config []
        ⟨"https://neos-server.org:3333", "milp", "FICO-Xpress", ["Gurobi"], "a@b.c", "",
          "NEOS Server"⟩
        ⟨true, [("milp", "Mixed Integer Linear Programming")],
          fun _ => ["FICO-Xpress:NL"], ["milp:FICO-Xpress:NL"], (42, "pw"), ["Done"], [],
          "fin", "0", "sol"⟩
        (fun _ _ => none)).1
      = .ok ⟨"milp", "FICO-Xpress", "short", "a@b.c", "", none⟩
    ∧ (get_neos_config []
        ⟨"https://neos-server.org:3333", "milp", "FICO-Xpress", ["Gurobi"], "", "",
          "NEOS Server"⟩
        ⟨true, [("milp", "Mixed Integer Linear Programming")],
          fun _ => ["FICO-Xpress:NL"], ["milp:FICO-Xpress:NL"], (42, "pw"), ["Done"], [],
          "fin", "0", "sol"⟩
        (fun _ _ => none)).1
      = .error (.exception "NEOS requires email for problem submissions, please specify it.") := by
  have h := c4_stored_defaults
    ⟨"https://neos-server.org:3333", "milp", "FICO-Xpress", ["Gurobi"], "a@b.c", "",
      "NEOS Server"⟩
    ⟨"https://neos-server.org:3333", "milp", "FICO-Xpress", ["Gurobi"], "", "",
      "NEOS Server"⟩
    ⟨true, [("milp", "Mixed Integer Linear Programming")],
      fun _ => ["FICO-Xpress:NL"], ["milp:FICO-Xpress:NL"], (42, "pw"), ["Done"], [],
      "fin", "0", "sol"⟩
    ⟨true, [("milp", "Mixed Integer Linear Programming")],
      fun _ => ["FICO-Xpress:NL"], ["milp:FICO-Xpress:NL"], (42, "pw"), ["Done"], [],
      "fin", "0", "sol"⟩
    (fun _ _ => none) (fun _ _ => none)
    rfl rfl (by decide) rfl rfl rfl
  exact h

/-! ## Claim C5 -/

/-- C5: when the options map carries a `solver` that is not among the
NL-capable solvers of the resolved category minus the forbidden solvers,
resolution fails with `ValueError` and the log trace enumerates exactly
that set of valid solvers (the list passed to the logging call at source
line 171). -/
theorem c5_invalid_solver (odict : List (String × String)) (stored : StoredConfig)
    (svc : NeosService) (kr : String → String → Option String)
    (cat sol : String) (valid : List String)
    (hcat : (resolve_category odict stored svc).1 = .ok cat)
    (hsol : dictGet odict "solver" = some sol)
    (hval : valid_nl_solvers (svc.solversInCategory cat) stored.forbidden_solvers = .ok valid)
    (hnot : valid.contains sol = false) :
    (get_neos_config odict stored svc kr).1
      = .error (.valueError ("Unsupported solver " ++ sol ++ " for category " ++ cat))
    ∧ (get_neos_config odict stored svc kr).2.filter Event.isSolverListLog
      = [.logSolverList valid] := by
  have hnot' : sol ∉ valid := not_mem_of_contains_eq_false hnot
  rcases h0 : dictGet odict "category" with _ | c0
  · rw [resolve_category, h0] at hcat
    simp only [Except.ok.injEq] at hcat
    subst hcat
    constructor <;>
      simp [get_neos_config, resolve_category, resolve_solver, h0, hsol, hval, hnot',
        Event.isSolverListLog]
  · rw [resolve_category, h0] at hcat
    dsimp only at hcat
    by_cases hc0 : (dictGet svc.categories c0).isSome = true
    · rw [if_pos hc0] at hcat
      simp only [Except.ok.injEq] at hcat
      subst hcat
      constructor <;>
        simp [get_neos_config, resolve_category, resolve_solver, h0, hc0, hsol, hval, hnot',
          Event.isSolverListLog]
    · rw [if_neg hc0] at hcat
      simp at hcat

/-- C5 witness: the invalid-solver failure evaluated on concrete inputs
(`Gurobi` requested while forbidden; the only valid solver enumerated is
`FICO-Xpress`). -/
theorem c5_witness :
    (get_neos_config [("solver", "Gurobi")]
        ⟨"https://neos-server.org:3333", "milp", "FICO-Xpress", ["Gurobi"], "a@b.c", "",
          "NEOS Server"⟩
        ⟨true, [("milp", "Mixed Integer Linear Programming")],
          fun _ => ["FICO-Xpress:NL", "Gurobi:NL", "MOSEK:MPS"], ["milp:FICO-Xpress:NL"],
          (42, "pw"), ["Done"], [], "fin", "0", "sol"⟩
        (fun _ _ => none)).1
      = .error (.valueError ("Unsupported solver " ++ "Gurobi" ++ " for category " ++ "milp"))
    ∧ (get_neos_config [("solver", "Gurobi")]
        ⟨"https://neos-server.org:3333", "milp", "FICO-Xpress", ["Gurobi"], "a@b.c", "",
          "NEOS Server"⟩
        ⟨true, [("milp", "Mixed Integer Linear Programming")],
          fun _ => ["FICO-Xpress:NL", "Gurobi:NL", "MOSEK:MPS"], ["milp:FICO-Xpress:NL"],
          (42, "pw"), ["Done"], [], "fin", "0", "sol"⟩
        (fun _ _ => none)).2.filter Event.isSolverListLog
      = [.logSolverList ["FICO-Xpress"]] :=
  c5_invalid_solver [("solver", "Gurobi")]
    ⟨"https://neos-server.org:3333", "milp", "FICO-Xpress", ["Gurobi"], "a@b.c", "",
      "NEOS Server"⟩
    ⟨true, [("milp", "Mixed Integer Linear Programming")],
      fun _ => ["FICO-Xpress:NL", "Gurobi:NL", "MOSEK:MPS"], ["milp:FICO-Xpress:NL"],
      (42, "pw"), ["Done"], [], "fin", "0", "sol"⟩
    (fun _ _ => none) "milp" "Gurobi" ["FICO-Xpress"] rfl rfl rfl rfl

/-! ## Trace structure of the job state machine -/

theorem filter_eq_nil_of_all_not (p : Event → Bool) (l : List Event)
    (h : l.all (fun e => !p e) = true) : l.filter p = [] := by
  induction l with
  | nil => rfl
  | cons e rest ih =>
    rw [List.all_cons, Bool.and_eq_true, Bool.not_eq_true'] at h
    rw [List.filter_cons, h.1]
    simpa using ih h.2

theorem poll_short_eq (status : String) (statuses : List String)
    (inter : List (String × Nat)) (offset : Nat) :
    poll_short status statuses inter offset =
      if status = "Done" then (.ok (), [])
      else
        match statuses with
        | [] => (.error .oracleExhausted, [])
        | st :: sts =>
          match inter with
          | [] => (.error .oracleExhausted, [])
          | (msg, newOffset) :: irest =>
            let q := poll_short st sts irest newOffset
            (q.1, [.getIntermediateResults offset, .printMsg msg, .getJobStatus] ++ q.2) := by
  rw [poll_short.eq_def]

theorem poll_long_eq (status : String) (statuses : List String) :
    poll_long status statuses =
      if status = "Done" then (.ok (), [])
      else
        match statuses with
        | [] => (.error .oracleExhausted, [])
        | st :: sts =>
          let q := poll_long st sts
          (q.1, [.printMsg ".", .getJobStatus] ++ q.2) := by
  rw [poll_long.eq_def]

theorem poll_short_no_submit_no_write :
    ∀ (statuses : List String) (status : String) (inter : List (String × Nat)) (offset : Nat),
      (poll_short status statuses inter offset).2.all
        (fun e => !e.isSubmitCall && !e.isWriteFile) = true := by
  intro statuses
  induction statuses with
  | nil =>
    intro status inter offset
    rw [poll_short_eq]
    by_cases h : status = "Done"
    · rw [if_pos h]
      rfl
    · rw [if_neg h]
      rfl
  | cons st sts ih =>
    intro status inter offset
    rw [poll_short_eq]
    by_cases h : status = "Done"
    · rw [if_pos h]
      rfl
    · rw [if_neg h]
      cases inter with
      | nil => rfl
      | cons pr irest =>
        obtain ⟨msg, newOff⟩ := pr
        dsimp only
        rcases hp : poll_short st sts irest newOff with ⟨r, evs⟩
        have hall := ih st irest newOff
        rw [hp] at hall
        dsimp only at hall ⊢
        rw [List.cons_append, List.cons_append, List.cons_append, List.nil_append,
          List.all_cons, List.all_cons, List.all_cons, hall]
        rfl

theorem poll_long_no_submit_no_write :
    ∀ (statuses : List String) (status : String),
      (poll_long status statuses).2.all
        (fun e => !e.isSubmitCall && !e.isWriteFile) = true := by
  intro statuses
  induction statuses with
  | nil =>
    intro status
    rw [poll_long_eq]
    by_cases h : status = "Done"
    · rw [if_pos h]
      rfl
    · rw [if_neg h]
      rfl
  | cons st sts ih =>
    intro status
    rw [poll_long_eq]
    by_cases h : status = "Done"
    · rw [if_pos h]
      rfl
    · rw [if_neg h]
      dsimp only
      rcases hp : poll_long st sts with ⟨r, evs⟩
      have hall := ih st
      rw [hp] at hall
      dsimp only at hall ⊢
      rw [List.cons_append, List.cons_append, List.nil_append,
        List.all_cons, List.all_cons, hall]
      rfl

/-- The submission events a `run_neos_job` trace starts with, as decided
by the resolved credential (source lines 294-298). -/
def submitEvents (xml : Option String) (cfg : NeosRunConfig) : List Event :=
  match cfg.pwd with
  | some p => if cfg.user = "" then [] else [Event.authenticatedSubmitJob xml cfg.user p]
  | none => [Event.submitJob xml]

theorem booland_all_left (p q : Event → Bool) (l : List Event)
    (h : l.all (fun e => !p e && !q e) = true) : l.all (fun e => !p e) = true := by
  rw [List.all_eq_true] at h ⊢
  intro e he
  have h' := h e he
  rw [Bool.and_eq_true] at h'
  exact h'.1

theorem booland_all_right (p q : Event → Bool) (l : List Event)
    (h : l.all (fun e => !p e && !q e) = true) : l.all (fun e => !q e) = true := by
  rw [List.all_eq_true] at h ⊢
  intro e he
  have h' := h e he
  rw [Bool.and_eq_true] at h'
  exact h'.2

theorem run_after_submit_no_submit (nl : FPath) (cfg : NeosRunConfig) (svc : NeosService) :
    (run_neos_job_after_submit nl cfg svc).2.all (fun e => !e.isSubmitCall) = true := by
  rw [run_neos_job_after_submit]
  have hfin : (finalize_job nl svc).all (fun e => !e.isSubmitCall) = true := by
    rw [finalize_job]
    rfl
  by_cases hid : svc.submitResult.1 = 0
  · rw [if_pos hid]
    rfl
  · rw [if_neg hid]
    cases svc.statuses with
    | nil => rfl
    | cons status sts =>
      dsimp only
      by_cases hval : status = "Waiting" ∨ status = "Running" ∨ status = "Done"
      · rw [if_neg (not_not_intro hval)]
        by_cases hpr : cfg.priority = "short"
        · rw [if_pos hpr]
          rcases hq : poll_short status sts svc.inter 0 with ⟨r, evs⟩
          have hall := poll_short_no_submit_no_write sts status svc.inter 0
          rw [hq] at hall
          dsimp only at hall
          have hall' := booland_all_left _ _ _ hall
          cases r with
          | error e =>
            dsimp only
            rw [List.all_cons, hall']
            rfl
          | ok u =>
            dsimp only
            rw [List.cons_append, List.all_cons, List.all_append, hall', hfin]
            rfl
        · rw [if_neg hpr]
          dsimp only
          rcases hq : poll_long status sts with ⟨r, evs⟩
          have hall := poll_long_no_submit_no_write sts status
          rw [hq] at hall
          dsimp only at hall
          have hall' := booland_all_left _ _ _ hall
          cases r with
          | error e =>
            dsimp only
            rw [List.cons_append, List.cons_append, List.nil_append,
              List.all_cons, List.all_cons, List.all_cons, hall']
            rfl
          | ok u =>
            dsimp only
            rw [List.cons_append, List.append_assoc, List.cons_append, List.cons_append,
              List.nil_append, List.all_cons, List.all_cons, List.all_cons, List.all_append,
              hall', hfin]
            rfl
      · rw [if_pos hval]
        rfl

theorem run_neos_job_trace (nl : FPath) (xml : Option String)
    (cfg : NeosRunConfig) (svc : NeosService) :
    ∃ rest, (run_neos_job nl xml cfg svc).2 = submitEvents xml cfg ++ rest
      ∧ rest.all (fun e => !e.isSubmitCall) = true := by
  rw [run_neos_job]
  cases hpwd : cfg.pwd with
  | none =>
    exact ⟨(run_neos_job_after_submit nl cfg svc).2,
      by simp [submitEvents, hpwd], run_after_submit_no_submit nl cfg svc⟩
  | some p =>
    dsimp only
    by_cases hu : cfg.user = ""
    · rw [if_pos hu]
      exact ⟨[], by simp [submitEvents, hpwd, hu]⟩
    · rw [if_neg hu]
      exact ⟨(run_neos_job_after_submit nl cfg svc).2,
        by simp [submitEvents, hpwd, hu], run_after_submit_no_submit nl cfg svc⟩

/-! ## Claim C6 -/

/-- C6: when the resolved username is non-empty but the keyring holds no
credential for it, resolution still succeeds with an absent password and
a warning is logged; the subsequent submission then uses the anonymous
submit call with the document only, while a resolved credential makes it
use the authenticated submit call with document, username and password. -/
theorem c6_credential_fallback (odict : List (String × String))
    (stored : StoredConfig) (svc : NeosService) (kr : String → String → Option String)
    (u : String)
    (hc : dictGet odict "category" = none)
    (hs : dictGet odict "solver" = none)
    (he : (dictGet odict "email").getD stored.email ≠ "")
    (hu : (dictGet odict "user").getD stored.user = u)
    (hune : u ≠ "")
    (hkr : kr stored.keyring_id u = none)
    (nl : FPath) (xml : Option String) (cfgA cfgB : NeosRunConfig)
    (svcA svcB : NeosService) (pw : String)
    (hA : cfgA.pwd = none)
    (hB : cfgB.pwd = some pw) (hBu : cfgB.user ≠ "") :
    (get_neos_config odict stored svc kr).1
      = .ok ⟨stored.category, stored.solver, (dictGet odict "priority").getD "short",
          (dictGet odict "email").getD stored.email, u, none⟩
    ∧ Event.logWarning ("No password found in the keyring for NEOS user " ++ u ++ "!")
        ∈ (get_neos_config odict stored svc kr).2
    ∧ (run_neos_job nl xml cfgA svcA).2.filter Event.isSubmitCall = [.submitJob xml]
    ∧ (run_neos_job nl xml cfgB svcB).2.filter Event.isSubmitCall
      = [.authenticatedSubmitJob xml cfgB.user pw] := by
  refine ⟨?_, ?_, ?_, ?_⟩
  · simp [get_neos_config, resolve_category, resolve_solver, hc, hs, hu, he, hune, hkr]
  · simp [get_neos_config, resolve_category, resolve_solver, hc, hs, hu, he, hune, hkr]
  · obtain ⟨rest, heq, hall⟩ := run_neos_job_trace nl xml cfgA svcA
    rw [heq, List.filter_append, filter_eq_nil_of_all_not _ _ hall, List.append_nil]
    simp [submitEvents, hA, Event.isSubmitCall]
  · obtain ⟨rest, heq, hall⟩ := run_neos_job_trace nl xml cfgB svcB
    rw [heq, List.filter_append, filter_eq_nil_of_all_not _ _ hall, List.append_nil]
    simp [submitEvents, hB, hBu, Event.isSubmitCall]

/-- C6 witness: resolution with a username that has no stored credential,
and both submission dispatches, evaluated on concrete inputs. -/
theorem c6_witness :
    (get_neos_config []
        ⟨"https://neos-server.org:3333", "milp", "FICO-Xpress", ["Gurobi"], "a@b.c", "jane",
          "NEOS Server"⟩
        ⟨true, [("milp", "descr")], fun _ => ["FICO-Xpress:NL"], ["milp:FICO-Xpress:NL"],
          (42, "pw"), ["Done"], [], "fin", "0", "sol"⟩
        (fun _ _ => none)).1
      = .ok ⟨"milp", "FICO-Xpress", "short", "a@b.c", "jane", none⟩
    ∧ Event.logWarning ("No password found in the keyring for NEOS user " ++ "jane" ++ "!")
        ∈ (get_neos_config []
            ⟨"https://neos-server.org:3333", "milp", "FICO-Xpress", ["Gurobi"], "a@b.c", "jane",
              "NEOS Server"⟩
            ⟨true, [("milp", "descr")], fun _ => ["FICO-Xpress:NL"], ["milp:FICO-Xpress:NL"],
              (42, "pw"), ["Done"], [], "fin", "0", "sol"⟩
            (fun _ _ => none)).2
    ∧ (run_neos_job ⟨"model", ".nl"⟩ none
          ⟨"milp", "FICO-Xpress", "short", "a@b.c", "jane", none⟩
          ⟨true, [], fun _ => [], [], (42, "pw"), ["Done"], [], "fin", "0", "sol"⟩).2.filter
        Event.isSubmitCall = [.submitJob none]
    ∧ (run_neos_job ⟨"model", ".nl"⟩ none
          ⟨"milp", "FICO-Xpress", "short", "a@b.c", "jane", some "secret123"⟩
          ⟨true, [], fun _ => [], [], (42, "pw"), ["Done"], [], "fin", "0", "sol"⟩).2.filter
        Event.isSubmitCall = [.authenticatedSubmitJob none "jane" "secret123"] := by
  have h := c6_credential_fallback []
    ⟨"https://neos-server.org:3333", "milp", "FICO-Xpress", ["Gurobi"], "a@b.c", "jane",
      "NEOS Server"⟩
    ⟨true, [("milp", "descr")], fun _ => ["FICO-Xpress:NL"], ["milp:FICO-Xpress:NL"],
      (42, "pw"), ["Done"], [], "fin", "0", "sol"⟩
    (fun _ _ => none) "jane" rfl rfl (by decide) rfl (by decide) rfl
    ⟨"model", ".nl"⟩ none
    ⟨"milp", "FICO-Xpress", "short", "a@b.c", "jane", none⟩
    ⟨"milp", "FICO-Xpress", "short", "a@b.c", "jane", some "secret123"⟩
    ⟨true, [], fun _ => [], [], (42, "pw"), ["Done"], [], "fin", "0", "sol"⟩
    ⟨true, [], fun _ => [], [], (42, "pw"), ["Done"], [], "fin", "0", "sol"⟩
    "secret123" rfl rfl (by decide)
  exact h

/-! ## Claim C7 -/

theorem run_neos_job_decomp (nl : FPath) (xml : Option String) (cfg : NeosRunConfig)
    (svc : NeosService) (hok : cfg.pwd = none ∨ cfg.user ≠ "") :
    run_neos_job nl xml cfg svc =
      ((run_neos_job_after_submit nl cfg svc).1,
        submitEvents xml cfg ++ (run_neos_job_after_submit nl cfg svc).2) := by
  rw [run_neos_job]
  cases hpwd : cfg.pwd with
  | none => simp [submitEvents, hpwd]
  | some p =>
    dsimp only
    rcases hok with h | h
    · rw [hpwd] at h
      cases h
    · rw [if_neg h]
      simp [submitEvents, hpwd, h]

theorem submitEvents_all_submit (xml : Option String) (cfg : NeosRunConfig) :
    ∀ e ∈ submitEvents xml cfg, e.isSubmitCall = true := by
  intro e he
  rw [submitEvents] at he
  cases hpwd : cfg.pwd with
  | none =>
    rw [hpwd] at he
    simp only [List.mem_singleton] at he
    subst he
    rfl
  | some p =>
    rw [hpwd] at he
    dsimp only at he
    by_cases h : cfg.user = ""
    · rw [if_pos h] at he
      cases he
    · rw [if_neg h] at he
      simp only [List.mem_singleton] at he
      subst he
      rfl

theorem event_submit_excludes (e : Event) (h : e.isSubmitCall = true) :
    e.isWriteFile = false ∧ e.isFinalFetch = false ∧ e.isInterFetch = false := by
  cases e <;>
    simp [Event.isSubmitCall, Event.isWriteFile, Event.isFinalFetch, Event.isInterFetch] at h ⊢

theorem submitEvents_filter_nil (xml : Option String) (cfg : NeosRunConfig)
    (p : Event → Bool) (hp : ∀ e, e.isSubmitCall = true → p e = false) :
    (submitEvents xml cfg).filter p = [] ∧ (submitEvents xml cfg).countP p = 0 := by
  have hall : (submitEvents xml cfg).all (fun e => !p e) = true := by
    rw [List.all_eq_true]
    intro e he
    rw [hp e (submitEvents_all_submit xml cfg e he)]
    rfl
  refine ⟨filter_eq_nil_of_all_not p _ hall, ?_⟩
  rw [List.countP_eq_zero]
  intro a ha
  rw [hp a (submitEvents_all_submit xml cfg a ha)]
  simp

/-- C7: a submission answered with job id `0` makes the run fail with the
submission error and write no solution file; a submission answered with
job id `42` whose first status is already `Done` succeeds with exactly
one finalize cycle, writing exactly one file — the model path with its
suffix replaced by `.sol`, holding the raw bytes the service returned. -/
theorem c7_submission_outcomes (nl : FPath) (xml : Option String) (cfg : NeosRunConfig)
    (svcA svcB : NeosService) (pwA pwB : String) (sts' : List String)
    (hok : cfg.pwd = none ∨ cfg.user ≠ "")
    (hA : svcA.submitResult = (0, pwA))
    (hB : svcB.submitResult = (42, pwB))
    (hBs : svcB.statuses = "Done" :: sts') :
    (run_neos_job nl xml cfg svcA).1 = .error (.runtimeError "NEOS job submission failed!")
    ∧ (run_neos_job nl xml cfg svcA).2.filter Event.isWriteFile = []
    ∧ (run_neos_job nl xml cfg svcB).1 = .ok ()
    ∧ (run_neos_job nl xml cfg svcB).2.countP Event.isFinalFetch = 1
    ∧ (run_neos_job nl xml cfg svcB).2.filter Event.isWriteFile
      = [.writeFile (nl.withSuffix ".sol") svcB.outputFile] := by
  have hdA := run_neos_job_decomp nl xml cfg svcA hok
  have hdB := run_neos_job_decomp nl xml cfg svcB hok
  have hafterA : run_neos_job_after_submit nl cfg svcA
      = (.error (.runtimeError "NEOS job submission failed!"), []) := by
    rw [run_neos_job_after_submit, hA]
    rfl
  have hafterB : run_neos_job_after_submit nl cfg svcB
        = (.ok (), [Event.getJobStatus] ++ finalize_job nl svcB)
      ∨ run_neos_job_after_submit nl cfg svcB
        = (.ok (), [Event.getJobStatus,
            Event.printMsg "Job running with long priority -> no intermediate output",
            Event.printMsg "Please wait"] ++ finalize_job nl svcB) := by
    by_cases hpr : cfg.priority = "short"
    · left
      rw [run_neos_job_after_submit, hB, hBs]
      simp [hpr, poll_short_eq]
    · right
      rw [run_neos_job_after_submit, hB, hBs]
      simp [hpr, poll_long_eq]
  have hsubW := submitEvents_filter_nil xml cfg Event.isWriteFile
    (fun e he => (event_submit_excludes e he).1)
  have hsubF := submitEvents_filter_nil xml cfg Event.isFinalFetch
    (fun e he => (event_submit_excludes e he).2.1)
  refine ⟨?_, ?_, ?_, ?_, ?_⟩
  · rw [hdA, hafterA]
  · rw [hdA, hafterA]
    dsimp only
    rw [List.append_nil, hsubW.1]
  · rcases hafterB with hBe | hBe <;> rw [hdB, hBe]
  · rcases hafterB with hBe | hBe <;>
      · rw [hdB, hBe]
        dsimp only
        rw [List.countP_append, List.countP_append, hsubF.2]
        rfl
  · rcases hafterB with hBe | hBe <;>
      · rw [hdB, hBe]
        dsimp only
        rw [List.filter_append, List.filter_append, hsubW.1]
        rfl

/-- C7 witness: both submission outcomes evaluated on concrete services:
job id 0 fails with no file written; job id 42 with immediate `Done`
writes `model.sol` with the returned bytes. -/
theorem c7_witness :
    (run_neos_job ⟨"model", ".nl"⟩ none ⟨"milp", "FICO-Xpress", "short", "a@b.c", "", none⟩
        ⟨true, [], fun _ => [], [], (0, "pw"), ["Done"], [], "fin", "0", "SOLBYTES"⟩).1
      = .error (.runtimeError "NEOS job submission failed!")
    ∧ (run_neos_job ⟨"model", ".nl"⟩ none ⟨"milp", "FICO-Xpress", "short", "a@b.c", "", none⟩
        ⟨true, [], fun _ => [], [], (0, "pw"), ["Done"], [], "fin", "0", "SOLBYTES"⟩).2.filter
        Event.isWriteFile = []
    ∧ (run_neos_job ⟨"model", ".nl"⟩ none ⟨"milp", "FICO-Xpress", "short", "a@b.c", "", none⟩
        ⟨true, [], fun _ => [], [], (42, "pw"), ["Done"], [], "fin", "0", "SOLBYTES"⟩).1
      = .ok ()
    ∧ (run_neos_job ⟨"model", ".nl"⟩ none ⟨"milp", "FICO-Xpress", "short", "a@b.c", "", none⟩
        ⟨true, [], fun _ => [], [], (42, "pw"), ["Done"], [], "fin", "0", "SOLBYTES"⟩).2.countP
        Event.isFinalFetch = 1
    ∧ (run_neos_job ⟨"model", ".nl"⟩ none ⟨"milp", "FICO-Xpress", "short", "a@b.c", "", none⟩
        ⟨true, [], fun _ => [], [], (42, "pw"), ["Done"], [], "fin", "0", "SOLBYTES"⟩).2.filter
        Event.isWriteFile
      = [.writeFile (FPath.withSuffix ⟨"model", ".nl"⟩ ".sol") "SOLBYTES"] :=
  c7_submission_outcomes ⟨"model", ".nl"⟩ none
    ⟨"milp", "FICO-Xpress", "short", "a@b.c", "", none⟩
    ⟨true, [], fun _ => [], [], (0, "pw"), ["Done"], [], "fin", "0", "SOLBYTES"⟩
    ⟨true, [], fun _ => [], [], (42, "pw"), ["Done"], [], "fin", "0", "SOLBYTES"⟩
    "pw" "pw" [] (Or.inl rfl) rfl rfl rfl

/-! ## Claim C8 -/

theorem interCursors_append (a b : List Event) :
    interCursors (a ++ b) = interCursors a ++ interCursors b := by
  rw [interCursors, interCursors, interCursors, List.filterMap_append]

theorem interCursors_submitEvents (xml : Option String) (cfg : NeosRunConfig) :
    interCursors (submitEvents xml cfg) = [] := by
  rw [submitEvents]
  cases cfg.pwd with
  | none => rfl
  | some p =>
    dsimp only
    by_cases h : cfg.user = ""
    · rw [if_pos h]
      rfl
    · rw [if_neg h]
      rfl

theorem takeWhile_append_of_all (p : Event → Bool) (a b : List Event)
    (h : a.all p = true) : (a ++ b).takeWhile p = a ++ b.takeWhile p := by
  induction a with
  | nil => rfl
  | cons e rest ih =>
    rw [List.all_cons, Bool.and_eq_true] at h
    rw [List.cons_append, List.takeWhile_cons, h.1, if_pos rfl, ih h.2, List.cons_append]

/-- C8: with short priority and the service answering the successive
status queries `Waiting, Running, Running, Done`, the polling loop runs
exactly three iterations, each fetching intermediate output, all before
finalization; the cursor passed to the first intermediate-results call is
0, each later call passes exactly the cursor the previous call returned,
and (the returned cursors being non-decreasing) the passed cursors never
decrease. -/
theorem c8_short_polling (nl : FPath) (xml : Option String) (cfg : NeosRunConfig)
    (svc : NeosService) (jid : Nat) (jpw m1 m2 m3 : String) (o1 o2 o3 : Nat)
    (irest : List (String × Nat))
    (hok : cfg.pwd = none ∨ cfg.user ≠ "")
    (hj : ¬ jid = 0)
    (hjp : svc.submitResult = (jid, jpw))
    (hpr : cfg.priority = "short")
    (hst : svc.statuses = ["Waiting", "Running", "Running", "Done"])
    (hint : svc.inter = (m1, o1) :: (m2, o2) :: (m3, o3) :: irest)
    (h12 : o1 ≤ o2) :
    interCursors (run_neos_job nl xml cfg svc).2 = [0, o1, o2]
    ∧ (run_neos_job nl xml cfg svc).2.countP Event.isInterFetch = 3
    ∧ List.Chain' (fun a b => a ≤ b) (interCursors (run_neos_job nl xml cfg svc).2)
    ∧ ((run_neos_job nl xml cfg svc).2.takeWhile
        (fun e => !e.isFinalFetch)).countP Event.isInterFetch = 3 := by
  have hpoll : poll_short "Waiting" ["Running", "Running", "Done"]
      ((m1, o1) :: (m2, o2) :: (m3, o3) :: irest) 0
      = (.ok (), [Event.getIntermediateResults 0, Event.printMsg m1, Event.getJobStatus,
          Event.getIntermediateResults o1, Event.printMsg m2, Event.getJobStatus,
          Event.getIntermediateResults o2, Event.printMsg m3, Event.getJobStatus]) := by
    simp [poll_short_eq]
  have hafter : run_neos_job_after_submit nl cfg svc
      = (.ok (), Event.getJobStatus ::
          [Event.getIntermediateResults 0, Event.printMsg m1, Event.getJobStatus,
           Event.getIntermediateResults o1, Event.printMsg m2, Event.getJobStatus,
           Event.getIntermediateResults o2, Event.printMsg m3, Event.getJobStatus]
          ++ finalize_job nl svc) := by
    rw [run_neos_job_after_submit, hjp, hst, hint]
    simp [hj, hpr, hpoll]
  have hd := run_neos_job_decomp nl xml cfg svc hok
  have hsubI := submitEvents_filter_nil xml cfg Event.isInterFetch
    (fun e he => (event_submit_excludes e he).2.2)
  have hsubF : (submitEvents xml cfg).all (fun e => !e.isFinalFetch) = true := by
    rw [List.all_eq_true]
    intro e he
    rw [(event_submit_excludes e (submitEvents_all_submit xml cfg e he)).2.1]
    rfl
  have hcur : interCursors (run_neos_job nl xml cfg svc).2 = [0, o1, o2] := by
    rw [hd, hafter]
    dsimp only
    rw [interCursors_append, interCursors_submitEvents, List.nil_append]
    rfl
  refine ⟨hcur, ?_, ?_, ?_⟩
  · rw [hd, hafter]
    dsimp only
    rw [List.countP_append, hsubI.2]
    rfl
  · rw [hcur]
    exact List.chain'_cons.mpr ⟨Nat.zero_le o1,
      List.chain'_cons.mpr ⟨h12, List.chain'_singleton o2⟩⟩
  · rw [hd, hafter]
    dsimp only
    rw [takeWhile_append_of_all _ _ _ hsubF, List.countP_append, hsubI.2]
    rfl

/-- C8 witness: the polling scenario evaluated on a concrete service
whose intermediate-result cursors are 5, 9, 9. -/
theorem c8_witness :
    interCursors (run_neos_job ⟨"model", ".nl"⟩ none
        ⟨"milp", "FICO-Xpress", "short", "a@b.c", "", none⟩
        ⟨true, [], fun _ => [], [], (42, "pw"),
          ["Waiting", "Running", "Running", "Done"],
          [("m1", 5), ("m2", 9), ("m3", 9)], "fin", "0", "sol"⟩).2 = [0, 5, 9]
    ∧ (run_neos_job ⟨"model", ".nl"⟩ none
        ⟨"milp", "FICO-Xpress", "short", "a@b.c", "", none⟩
        ⟨true, [], fun _ => [], [], (42, "pw"),
          ["Waiting", "Running", "Running", "Done"],
          [("m1", 5), ("m2", 9), ("m3", 9)], "fin", "0", "sol"⟩).2.countP
        Event.isInterFetch = 3
    ∧ List.Chain' (fun a b => a ≤ b) (interCursors (run_neos_job ⟨"model", ".nl"⟩ none
        ⟨"milp", "FICO-Xpress", "short", "a@b.c", "", none⟩
        ⟨true, [], fun _ => [], [], (42, "pw"),
          ["Waiting", "Running", "Running", "Done"],
          [("m1", 5), ("m2", 9), ("m3", 9)], "fin", "0", "sol"⟩).2)
    ∧ ((run_neos_job ⟨"model", ".nl"⟩ none
        ⟨"milp", "FICO-Xpress", "short", "a@b.c", "", none⟩
        ⟨true, [], fun _ => [], [], (42, "pw"),
          ["Waiting", "Running", "Running", "Done"],
          [("m1", 5), ("m2", 9), ("m3", 9)], "fin", "0", "sol"⟩).2.takeWhile
        (fun e => !e.isFinalFetch)).countP Event.isInterFetch = 3 :=
  c8_short_polling ⟨"model", ".nl"⟩ none
    ⟨"milp", "FICO-Xpress", "short", "a@b.c", "", none⟩
    ⟨true, [], fun _ => [], [], (42, "pw"),
      ["Waiting", "Running", "Running", "Done"],
      [("m1", 5), ("m2", 9), ("m3", 9)], "fin", "0", "sol"⟩
    42 "pw" "m1" "m2" "m3" 5 9 9 [] (Or.inl rfl) (by decide) rfl rfl rfl rfl
    (by decide)

/-! ## Claim C3: CDATA embedding and a compliant parser -/

/-- Split a character stream at the first occurrence of `pat`:
`some (before, after)`, or `none` when `pat` does not occur. -/
def findSplit (pat : List Char) : List Char → Option (List Char × List Char)
  | [] => if pat = [] then some ([], []) else none
  | c :: cs =>
    if pat.isPrefixOf (c :: cs) then some ([], (c :: cs).drop pat.length)
    else
      match findSplit pat cs with
      | none => none
      | some (a, b) => some (c :: a, b)

/-- How a compliant parser reads the model section of the document: position
after the first `<model><![CDATA[`, then take everything up to the first
`]]>`. -/
def extract_model_cdata (doc : String) : Option String :=
  match findSplit cdata_open_marker.toList doc.toList with
  | none => none
  | some (_, rest) =>
    match findSplit cdata_close.toList rest with
    | none => none
    | some (content, _) => some (String.mk content)

theorem prefix_of_append_left (p X Y : List Char) (h : p <+: X ++ Y)
    (hlen : p.length ≤ X.length) : p <+: X := by
  have h1 := List.prefix_iff_eq_take.mp h
  rw [List.take_append_of_le_length hlen] at h1
  rw [h1]
  exact List.take_prefix _ _

theorem findSplit_first (pat : List Char) :
    ∀ (a b : List Char), pat ≠ [] →
      ¬ pat <:+: (a ++ pat.dropLast) →
      findSplit pat (a ++ (pat ++ b)) = some (a, b) := by
  intro a
  induction a with
  | nil =>
    intro b hne _
    rw [List.nil_append]
    cases hp : pat with
    | nil => exact absurd hp hne
    | cons p ps =>
      rw [← hp]
      have hcons : pat ++ b = p :: (ps ++ b) := by rw [hp]; rfl
      rw [hcons, findSplit, ← hcons,
        if_pos (List.isPrefixOf_iff_prefix.mpr (List.prefix_append pat b)),
        List.drop_left]
  | cons c a' ih =>
    intro b hne hno
    have hlast := List.dropLast_append_getLast hne
    have hsplitL : (c :: a') ++ (pat ++ b)
        = ((c :: a') ++ pat.dropLast) ++ ([pat.getLast hne] ++ b) := by
      conv_lhs => rw [← hlast]
      simp [List.append_assoc]
    have hnp : ¬ pat.isPrefixOf ((c :: a') ++ (pat ++ b)) = true := by
      intro hp
      have hpre := List.isPrefixOf_iff_prefix.mp hp
      have hlen : pat.length ≤ ((c :: a') ++ pat.dropLast).length := by
        have h1 : 1 ≤ pat.length := by
          cases pat with
          | nil => exact absurd rfl hne
          | cons q qs => simp
        simp only [List.length_append, List.length_cons, List.length_dropLast]
        omega
      rw [hsplitL] at hpre
      exact hno (prefix_of_append_left _ _ _ hpre hlen).isInfix
    have hno' : ¬ pat <:+: (a' ++ pat.dropLast) := fun hinf =>
      hno (List.infix_cons hinf)
    have hcons2 : (c :: a') ++ (pat ++ b) = c :: (a' ++ (pat ++ b)) := rfl
    rw [hcons2, findSplit, ← hcons2, if_neg hnp, ih b hne hno']

theorem cdata_close_infix_reduce (l : List Char)
    (h : ([']', ']', '>'] : List Char) <:+: l ++ [']', ']']) :
    ([']', ']', '>'] : List Char) <:+: l := by
  obtain ⟨s, t, hst⟩ := h
  have hrev := congrArg List.reverse hst
  simp only [List.reverse_append] at hrev
  rcases ht : t.reverse with _ | ⟨x, _ | ⟨y, r⟩⟩
  · rw [ht] at hrev
    simp at hrev
  · rw [ht] at hrev
    simp at hrev
  · rw [ht] at hrev
    have hr : r ++ ([']', ']', '>'] : List Char).reverse ++ s.reverse = l.reverse := by
      have := hrev
      simp only [List.cons_append, List.append_assoc] at this ⊢
      simp at this
      obtain ⟨-, -, h3⟩ := this
      simpa [List.append_assoc] using h3
    refine ⟨s, r.reverse, ?_⟩
    have := congrArg List.reverse hr
    simp only [List.reverse_append, List.reverse_reverse, List.reverse_cons] at this
    simpa [List.append_assoc] using this

set_option maxRecDepth 8000 in
/-- C3 counterexample: a model text containing `<`, `&` and the CDATA
terminator `]]>` is NOT recovered by a compliant parser of the built
document — the embedding splices the text into the CDATA section
verbatim, so the first `]]>` of the content ends the section early. -/
theorem c3_counterexample :
    ('<' ∈ "g <&x]]>y".toList) ∧ ('&' ∈ "g <&x]]>y".toList)
    ∧ ("]]>".toList <:+: "g <&x]]>y".toList)
    ∧ extract_model_cdata (neos_xml_doc [] "g <&x]]>y"
        ⟨"milp", "FICO-Xpress", "short", "a@b.c", "", none⟩) ≠ some "g <&x]]>y"
    ∧ extract_model_cdata (neos_xml_doc [] "g <&x]]>y"
        ⟨"milp", "FICO-Xpress", "short", "a@b.c", "", none⟩) = some "g <&x" := by
  refine ⟨by decide, by decide, by decide, by decide, by decide⟩

/-- C3 (amended): the round trip holds exactly for model texts free of the
CDATA terminator: if the document header does not contain the CDATA
opening marker and the model text does not contain `]]>`, a compliant
parser of the built document recovers the model text byte-for-byte (`<`
and `&` in the text are harmless); a text containing `]]>` is truncated
at its first `]]>` (see the counterexample). -/
theorem c3_cdata_roundtrip (odict : List (String × String)) (content : String)
    (config : NeosRunConfig)
    (h1 : ¬ cdata_open_marker.toList <:+:
        ((doc_header config).toList ++ cdata_open_marker.toList.dropLast))
    (h2 : ¬ cdata_close.toList <:+: content.toList) :
    extract_model_cdata (neos_xml_doc odict content config) = some content := by
  have hlist : (neos_xml_doc odict content config).toList
      = (doc_header config).toList ++ (cdata_open_marker.toList
        ++ (content.toList ++ (cdata_close.toList ++ (doc_after_close odict).toList))) := by
    simp [neos_xml_doc, doc_before_model, doc_after_model, toList_append, List.append_assoc]
  have hclose : cdata_close.toList = ([']', ']', '>'] : List Char) := rfl
  have hdrop : cdata_close.toList.dropLast = ([']', ']'] : List Char) := rfl
  have h2' : ¬ cdata_close.toList <:+: (content.toList ++ cdata_close.toList.dropLast) := by
    intro hinf
    rw [hdrop, hclose] at hinf
    exact h2 (hclose.symm ▸ cdata_close_infix_reduce content.toList hinf)
  rw [extract_model_cdata, hlist,
    findSplit_first _ _ _ (by decide) h1]
  dsimp only
  rw [findSplit_first _ _ _ (by decide) h2']
  rfl

set_option maxRecDepth 8000 in
/-- C3 witness: the amended round trip evaluated on a concrete model text
containing `<` and `&` but no `]]>`. -/
theorem c3_witness :
    extract_model_cdata (neos_xml_doc [("iis", "on")] "g <&x y"
        ⟨"milp", "FICO-Xpress", "short", "a@b.c", "", none⟩) = some "g <&x y" :=
  c3_cdata_roundtrip [("iis", "on")] "g <&x y"
    ⟨"milp", "FICO-Xpress", "short", "a@b.c", "", none⟩ (by decide) (by decide)

end Nemos
